import Mathlib

/-!
Shallow embedding of the wire-format core of `application/client.py`
(a minimal command-line HTTP client): user-header validation
(`Request.parse_user_headers`), header assembly
(`Request.get_request_headers`), request serialization
(`Request.__bytes__`), and response parsing (`Response.from_bytes`,
`Response.parse_headers`, `Response.get_status`).

Python bytes are modelled as `List Nat` (each element < 256 in practice),
Python `str` as `List Char`.  Python `dict` (which preserves insertion
order and replaces values in place on key collision) is modelled as an
association list with the insertion operation `dictInsert`.  Fallible
operations return `Except Err _`, where `Err` covers the domain errors of
`application/errors.py` that the core can raise, plus the generic
`ValueError` (tuple-unpacking failure) and `UnicodeDecodeError` /
`UnicodeEncodeError` that CPython's `bytes.decode` / `str.encode` raise.
-/

namespace HttpClient

abbrev Bytes := List Nat
abbrev Str := List Char

/-- Errors observable from the embedded core.  `headerFormat` and
`incorrectStartingLine` are the domain errors from `application/errors.py`;
`valueError` models the generic unpacking `ValueError`; the two unicode
errors model CPython codec failures. -/
inductive Err where
  | headerFormat (name : Str)
  | incorrectStartingLine (line : Str)
  | valueError
  | unicodeDecodeError
  | unicodeEncodeError
  deriving DecidableEq

instance {ε α : Type} [DecidableEq ε] [DecidableEq α] : DecidableEq (Except ε α) :=
  fun x y =>
    match x, y with
    | .ok a, .ok b =>
      if h : a = b then .isTrue (by rw [h])
      else .isFalse (by intro e; injection e with e'; exact h e')
    | .ok _, .error _ => .isFalse (by intro e; exact Except.noConfusion e)
    | .error _, .ok _ => .isFalse (by intro e; exact Except.noConfusion e)
    | .error a, .error b =>
      if h : a = b then .isTrue (by rw [h])
      else .isFalse (by intro e; injection e with e'; exact h e')

/-- Encode a Lean string literal as the byte sequence of its code points
(used only to write concrete ASCII inputs compactly). -/
def encStr (s : String) : Bytes := s.toList.map Char.toNat

/-- Python `dict` assignment `d[k] = v`: replace the value in place if the
key is present, otherwise append the pair at the end. -/
def dictInsert : List (Str × Str) → Str → Str → List (Str × Str)
  | [], k, v => [(k, v)]
  | p :: rest, k, v => if p.1 = k then (k, v) :: rest else p :: dictInsert rest k v

/-- Python `dict` lookup `d[k]` (as an `Option`). -/
def dictGet : List (Str × Str) → Str → Option Str
  | [], _ => none
  | p :: rest, k => if p.1 = k then some p.2 else dictGet rest k

/-- Python `d.update(user)`: insert every pair of `user` in order. -/
def updateAll (d : List (Str × Str)) (user : List (Str × Str)) : List (Str × Str) :=
  user.foldl (fun acc p => dictInsert acc p.1 p.2) d

/-! ### Request side -/

/-- One character of the class `[a-zA-z\-]` from `HEADER_EXPR` in
`client.py` line 9.  Note the source's `A-z` range (65–122), which also
covers `[ \ ] ^ _` and the backtick. -/
def headerExprChar (c : Char) : Prop :=
  (97 ≤ c.toNat ∧ c.toNat ≤ 122) ∨ (65 ≤ c.toNat ∧ c.toNat ≤ 122) ∨ c.toNat = 45

instance (c : Char) : Decidable (headerExprChar c) := by
  unfold headerExprChar; infer_instance

/-- `re.search(HEADER_EXPR, s)` succeeds iff some character of `s` is in
the class (a one-or-more of a character class matches somewhere iff a
single class character occurs somewhere). -/
def headerExprSearch (s : Str) : Bool := s.any (fun c => decide (headerExprChar c))

/-- `Request.parse_user_headers` (client.py lines 38–46): walk the pairs,
reject a pair whose name fails `re.search(HEADER_EXPR, name)` with
`HeaderFormatError(name)`, otherwise assign into the result dict. -/
def parseUserHeadersAux (acc : List (Str × Str)) :
    List (Str × Str) → Except Err (List (Str × Str))
  | [] => .ok acc
  | p :: rest =>
    if headerExprSearch p.1 then parseUserHeadersAux (dictInsert acc p.1 p.2) rest
    else .error (.headerFormat p.1)

def parse_user_headers (hs : List (Str × Str)) : Except Err (List (Str × Str)) :=
  parseUserHeadersAux [] hs

/-- Decimal digit character `'0' + d` (for `d ≤ 9`), as produced by
Python `str(int)`. -/
def digitChar (d : Nat) : Char := Char.ofNat (48 + d)

/-- Decimal rendering of a natural number, as Python's `f"{n}"` renders a
nonnegative `int` (fuel-based recursion on the number of digits). -/
def natReprAux : Nat → Nat → Str
  | 0, _ => []
  | fuel + 1, n =>
    if n < 10 then [digitChar n]
    else natReprAux fuel (n / 10) ++ [digitChar (n % 10)]

def natRepr (n : Nat) : Str := natReprAux (n + 1) n

/-- The header dict of `Request.get_request_headers` (client.py lines
26–36) just before `headers.update(self.user_headers)`: the four base
headers, plus `Content-Length` / `Content-Type` when the method is
`POST`.  `content_length` is `len(self.message_body)` and `content_type`
is the constant `"text/plain"` set in `__init__`. -/
def preHeaders (method host agent : Str) (body : Bytes) : List (Str × Str) :=
  if method = "POST".toList then
    dictInsert
      (dictInsert
        [("Host".toList, host), ("User-Agent".toList, agent),
         ("Accept".toList, "*/*".toList), ("Connection".toList, "close".toList)]
        "Content-Length".toList (natRepr body.length))
      "Content-Type".toList "text/plain".toList
  else
    [("Host".toList, host), ("User-Agent".toList, agent),
     ("Accept".toList, "*/*".toList), ("Connection".toList, "close".toList)]

/-- `Request.get_request_headers`: base (and POST-derived) headers,
then `headers.update(self.user_headers)`. -/
def get_request_headers (method host agent : Str) (body : Bytes)
    (user : List (Str × Str)) : List (Str × Str) :=
  updateAll (preHeaders method host agent body) user

/-- ISO-8859-1 (Latin-1) encodability of one character. -/
def latin1Char (c : Char) : Prop := c.toNat < 256

instance (c : Char) : Decidable (latin1Char c) := by
  unfold latin1Char; infer_instance

/-- `bytes(s, "ISO-8859-1")`: each code point ≤ 255 becomes one byte;
any larger code point raises `UnicodeEncodeError`. -/
def encodeLatin1 (s : Str) : Except Err Bytes :=
  if s.all (fun c => decide (latin1Char c)) then .ok (s.map Char.toNat)
  else .error .unicodeEncodeError

/-- Total Latin-1 encoding (the value `encodeLatin1` returns on encodable
input). -/
def encL (s : Str) : Bytes := s.map Char.toNat

/-- The header lines `f"{header}: {value}\r\n"` of `Request.__bytes__`,
encoded and concatenated in dict order. -/
def headerLinesBytes : List (Str × Str) → Except Err Bytes
  | [] => .ok []
  | p :: rest =>
    match encodeLatin1 (p.1 ++ ": ".toList ++ p.2 ++ "\r\n".toList) with
    | .error e => .error e
    | .ok b =>
      match headerLinesBytes rest with
      | .error e => .error e
      | .ok bs => .ok (b ++ bs)

/-- `Request.__bytes__` (client.py lines 48–55): request line, header
lines, blank line, raw body, trailing `\r\n\r\n`. -/
def request_bytes (method path_qs : Str) (headers : List (Str × Str))
    (body : Bytes) : Except Err Bytes :=
  match encodeLatin1 (method ++ [' '] ++ path_qs ++ " HTTP/1.1\r\n".toList) with
  | .error e => .error e
  | .ok start =>
    match headerLinesBytes headers with
    | .error e => .error e
    | .ok hb => .ok (start ++ hb ++ [13, 10] ++ body ++ [13, 10, 13, 10])

/-- The caller-visible request description (mirror of `Request.__init__`'s
inputs): method, URL host and raw path+query, user agent, the raw
`(name, value)` header pairs from the command line, and the body bytes. -/
structure RequestSpec where
  method : Str
  host : Str
  raw_path_qs : Str
  user_agent : Str
  headers : List (Str × Str)
  message_body : Bytes
  deriving DecidableEq

/-- `bytes(Request(...))`: parse the user headers (in `__init__`), build
the header dict, serialize. -/
def request_to_bytes (r : RequestSpec) : Except Err Bytes :=
  match parse_user_headers r.headers with
  | .error e => .error e
  | .ok user =>
    request_bytes r.method r.raw_path_qs
      (get_request_headers r.method r.host r.user_agent r.message_body user)
      r.message_body

/-! ### Response side -/

def CRLF : Bytes := [13, 10]
def DELIM : Bytes := [13, 10, 13, 10]

/-- First index at which `sub` occurs in `s`, counting from `i` (Python
`bytes.find` semantics).  Written with a bare `List.rec` so that long
scans reduce iteratively in the kernel. -/
def findSubAux (sub : Bytes) (s : Bytes) : Nat → Option Nat :=
  List.rec (motive := fun _ => Nat → Option Nat)
    (fun i => if sub.isPrefixOf ([] : Bytes) then some i else none)
    (fun b rest ih i =>
      if sub.isPrefixOf (b :: rest) then some i else ih (i + 1))
    s

def findSub (sub s : Bytes) : Option Nat := findSubAux sub s 0

/-- `List.drop`, written with a bare `List.rec` (iterative kernel
reduction); used for the Python slices `s[i:]`. -/
def listDrop (s : Bytes) : Nat → Bytes :=
  List.rec (motive := fun _ => Nat → Bytes)
    (fun _ => [])
    (fun b rest ih n =>
      match n with
      | 0 => b :: rest
      | m + 1 => ih m)
    s

/-- Python `s.find(sub)`: index of the first occurrence, `-1` if absent. -/
def pyFind (s sub : Bytes) : Int :=
  match findSub sub s with
  | some i => (i : Int)
  | none => -1

/-- Python slice `s[:i]`, including the negative-index convention. -/
def pySliceTo (s : Bytes) (i : Int) : Bytes :=
  if 0 ≤ i then s.take i.toNat else s.take (s.length - i.natAbs)

/-- Python slice `s[i:]`, including the negative-index convention. -/
def pySliceFrom (s : Bytes) (i : Int) : Bytes :=
  if 0 ≤ i then listDrop s i.toNat else listDrop s (s.length - i.natAbs)

/-- The buffering phase of `Response.from_bytes` (client.py lines 67–81).
The accumulated response is read as `read(2048)`, then — if the delimiter
was not found in that chunk — `read(1024)`, searching each chunk
separately with `bytes.find` (which yields `-1` on failure, making the
subsequent `part[:index]` / `part[index + 4:]` slices use Python's
negative-index semantics).  The trailing `while part:` loop concatenates
every remaining chunk onto the body.  Returns
`(raw_headers, message_body)`. -/
def split_response (raw : Bytes) : Bytes × Bytes :=
  let part := raw.take 2048
  let index := pyFind part DELIM
  if index = -1 then
    let part2 := (listDrop raw 2048).take 1024
    let index2 := pyFind part2 DELIM
    (part ++ pySliceTo part2 index2,
      pySliceFrom part2 (index2 + 4) ++ listDrop raw 3072)
  else
    (pySliceTo part index, pySliceFrom part (index + 4) ++ listDrop raw 2048)

/-- Python `s.split(sep)` for a nonempty separator.  The structural fuel
is the input list itself: each separator found consumes at least one byte
of `s`, so `s` provides enough recursion steps; bare `List.rec` keeps
kernel reduction iterative. -/
def pySplitSepAux (sep : Bytes) (fuel : Bytes) : Bytes → List Bytes :=
  List.rec (motive := fun _ => Bytes → List Bytes)
    (fun s => [s])
    (fun _ _ ih s =>
      match findSub sep s with
      | none => [s]
      | some i => s.take i :: ih (listDrop s (i + sep.length)))
    fuel

def pySplitSep (sep s : Bytes) : List Bytes := pySplitSepAux sep s s

/-- One continuation byte `0x80–0xBF`. -/
def isCont (b : Nat) : Prop := 128 ≤ b ∧ b ≤ 191

instance (b : Nat) : Decidable (isCont b) := by
  unfold isCont; infer_instance

/-- Reverse-append (`s.reverse ++ acc`), bare `List.rec` for iterative
kernel reduction. -/
def revAppend (s : Str) : Str → Str :=
  List.rec (motive := fun _ => Str → Str)
    (fun acc => acc)
    (fun c _ ih acc => ih (c :: acc))
    s

/-- Strict UTF-8 decoding of `s`, as Python's `bytes.decode()` (default
codec, strict error handling): rejects truncated sequences, stray
continuation bytes, overlong forms, surrogate code points and values
above `0x10FFFF`.  The structural fuel is the byte list itself — every
decoded character consumes at least one byte, so the fuel never runs out
when the function is entered through `decodeUtf8`; bare `List.rec` keeps
kernel reduction iterative. -/
def decodeUtf8Fuel (fuel : Bytes) : Bytes → Str → Except Err Str :=
  List.rec (motive := fun _ => Bytes → Str → Except Err Str)
    (fun s acc =>
      match s with
      | [] => .ok (revAppend acc [])
      | _ :: _ => .error .unicodeDecodeError)
    (fun _ _ ih s acc =>
      match s with
      | [] => .ok (revAppend acc [])
      | b :: rest =>
        if b < 128 then ih rest (Char.ofNat b :: acc)
        else if 194 ≤ b ∧ b ≤ 223 then
          match rest with
          | c1 :: rest2 =>
            if isCont c1 then
              ih rest2 (Char.ofNat ((b - 192) * 64 + (c1 - 128)) :: acc)
            else .error .unicodeDecodeError
          | [] => .error .unicodeDecodeError
        else if 224 ≤ b ∧ b ≤ 239 then
          match rest with
          | c1 :: c2 :: rest2 =>
            if isCont c1 ∧ isCont c2 then
              let cp := (b - 224) * 4096 + (c1 - 128) * 64 + (c2 - 128)
              if 2048 ≤ cp ∧ ¬(55296 ≤ cp ∧ cp ≤ 57343) then
                ih rest2 (Char.ofNat cp :: acc)
              else .error .unicodeDecodeError
            else .error .unicodeDecodeError
          | _ => .error .unicodeDecodeError
        else if 240 ≤ b ∧ b ≤ 244 then
          match rest with
          | c1 :: c2 :: c3 :: rest2 =>
            if isCont c1 ∧ isCont c2 ∧ isCont c3 then
              let cp := (b - 240) * 262144 + (c1 - 128) * 4096 +
                (c2 - 128) * 64 + (c3 - 128)
              if 65536 ≤ cp ∧ cp ≤ 1114111 then
                ih rest2 (Char.ofNat cp :: acc)
              else .error .unicodeDecodeError
            else .error .unicodeDecodeError
          | _ => .error .unicodeDecodeError
        else .error .unicodeDecodeError)
    fuel

def decodeUtf8 (bs : Bytes) : Except Err Str := decodeUtf8Fuel bs bs []

/-- Python `s.split(":", 1)` followed by the two-name unpacking of
`Response.parse_headers`: `none` when the string has no `':'` (the
unpacking then raises `ValueError`). -/
def splitFirstColon : Str → Option (Str × Str)
  | [] => none
  | c :: rest =>
    if c = ':' then some ([], rest)
    else (splitFirstColon rest).map (fun p => (c :: p.1, p.2))

/-- `Response.parse_headers` (client.py lines 87–94): decode each line,
split on the first `':'`, assign `result[name] = value`. -/
def parseHeadersAux (acc : List (Str × Str)) :
    List Bytes → Except Err (List (Str × Str))
  | [] => .ok acc
  | h :: rest =>
    match decodeUtf8 h with
    | .error e => .error e
    | .ok s =>
      match splitFirstColon s with
      | none => .error .valueError
      | some p => parseHeadersAux (dictInsert acc p.1 p.2) rest

def parse_headers (ls : List Bytes) : Except Err (List (Str × Str)) :=
  parseHeadersAux [] ls

/-- Lowercase hex digit, as in Python's `\xNN` byte escapes. -/
def hexDigit (n : Nat) : Char :=
  if n < 10 then Char.ofNat (48 + n) else Char.ofNat (87 + n)

/-- One byte of Python `repr(bytes)` output, for a given quote byte:
backslash and the quote are escaped, tab/newline/carriage-return become
`\t`/`\n`/`\r`, printable ASCII passes through, everything else becomes
`\xNN`. -/
def reprByte (quote b : Nat) : Str :=
  if b = 92 then ['\\', '\\']
  else if b = quote then ['\\', Char.ofNat quote]
  else if b = 9 then ['\\', 't']
  else if b = 10 then ['\\', 'n']
  else if b = 13 then ['\\', 'r']
  else if 32 ≤ b ∧ b ≤ 126 then [Char.ofNat b]
  else ['\\', 'x', hexDigit (b / 16), hexDigit (b % 16)]

/-- Python `str(line)` for `line : bytes`: the repr `b'...'` (double
quotes when the bytes contain `'` but not `"`).  `Response.get_status`
runs its regex over this string. -/
def pyQuote (bs : Bytes) : Nat := if 39 ∈ bs ∧ ¬(34 ∈ bs) then 34 else 39

def pyReprB (bs : Bytes) : Str :=
  'b' :: Char.ofNat (pyQuote bs)
    :: ((bs.map (reprByte (pyQuote bs))).foldr (· ++ ·) [Char.ofNat (pyQuote bs)])

/-- ASCII decimal digit character. -/
def isDigitP (c : Char) : Prop := 48 ≤ c.toNat ∧ c.toNat ≤ 57

instance (c : Char) : Decidable (isDigitP c) := by
  unfold isDigitP; infer_instance

/-- Attempt to match `STARTING_LINE_EXPR = HTTP/1\.[01] (\d\d\d)[ \w]*`
at the head of the string; on success return the captured 3-digit status
code.  The trailing `[ \w]*` always matches (possibly empty) and does not
affect the capture. -/
def tryStatusAt : Str → Option Nat
  | c0 :: c1 :: c2 :: c3 :: c4 :: c5 :: c6 :: v :: c8 :: d1 :: d2 :: d3 :: _ =>
    if c0 = 'H' ∧ c1 = 'T' ∧ c2 = 'T' ∧ c3 = 'P' ∧ c4 = '/' ∧ c5 = '1' ∧ c6 = '.'
        ∧ (v = '0' ∨ v = '1') ∧ c8 = ' '
        ∧ isDigitP d1 ∧ isDigitP d2 ∧ isDigitP d3 then
      some (100 * (d1.toNat - 48) + 10 * (d2.toNat - 48) + (d3.toNat - 48))
    else none
  | _ => none

/-- `re.search(STARTING_LINE_EXPR, s)`: the leftmost position where the
pattern matches, returning the captured status code. -/
def statusSearch : Str → Option Nat
  | [] => none
  | c :: rest =>
    match tryStatusAt (c :: rest) with
    | some n => some n
    | none => statusSearch rest

/-- `Response.get_status` (client.py lines 96–102): search the repr of
the line for the status pattern; on failure raise
`IncorrectStartingLineError(line.decode())` (which itself decodes the
line, so an undecodable line raises `UnicodeDecodeError` instead). -/
def get_status (line : Bytes) : Except Err Nat :=
  match statusSearch (pyReprB line) with
  | some n => .ok n
  | none =>
    match decodeUtf8 line with
    | .ok s => .error (.incorrectStartingLine s)
    | .error _ => .error .unicodeDecodeError

/-- The `Response` value (client.py lines 58–63). -/
structure Response where
  status_code : Nat
  headers : List (Str × Str)
  message_body : Bytes
  headers_as_bytes : Bytes
  deriving DecidableEq

/-- The header-block lines: the raw header block of `split_response`,
split on `\r\n` (the `headers` local of `Response.from_bytes`). -/
def respLines (raw : Bytes) : List Bytes :=
  pySplitSep CRLF (split_response raw).1

/-- `Response.from_bytes` (client.py lines 65–85): buffer/split the raw
bytes, split the header block on `\r\n`, parse the status from the first
line and the headers from the rest. -/
def from_bytes (raw : Bytes) : Except Err Response :=
  match get_status ((respLines raw).headD []) with
  | .error e => .error e
  | .ok code =>
    match parse_headers (respLines raw).tail with
    | .error e => .error e
    | .ok hs =>
      .ok { status_code := code, headers := hs,
            message_body := (split_response raw).2,
            headers_as_bytes := (split_response raw).1 }

/-! ### Spec-side comparator definitions

The following definitions are written from the specification's words, not
from the source; they exist only to be compared against the behaviour of
the definitions above. -/

/-- Written from the spec: a header name matching `[A-Za-z-]+` in full —
nonempty, letters and hyphens only (spec §4.1). -/
def specHeaderName (s : Str) : Bool :=
  decide (s ≠ []) &&
    s.all (fun c => decide ((65 ≤ c.toNat ∧ c.toNat ≤ 90) ∨
      (97 ≤ c.toNat ∧ c.toNat ≤ 122) ∨ c.toNat = 45))

/-- `\w` over ASCII: letter, digit or underscore. -/
def isWordByte (b : Nat) : Prop :=
  (48 ≤ b ∧ b ≤ 57) ∨ (65 ≤ b ∧ b ≤ 90) ∨ (97 ≤ b ∧ b ≤ 122) ∨ b = 95

instance (b : Nat) : Decidable (isWordByte b) := by
  unfold isWordByte; infer_instance

/-- Written from the spec: the status-line grammar of §4.4/§6 — the whole
line is `HTTP/1.0` or `HTTP/1.1`, a space, a 3-digit status code, and
optional reason text drawn from `[ \w]*`. -/
def specStatusLineGrammar (line : Bytes) : Bool :=
  match line with
  | 72 :: 84 :: 84 :: 80 :: 47 :: 49 :: 46 :: v :: 32 :: d1 :: d2 :: d3 :: rest =>
    decide (v = 48 ∨ v = 49) && decide (48 ≤ d1 ∧ d1 ≤ 57) &&
      decide (48 ≤ d2 ∧ d2 ≤ 57) && decide (48 ≤ d3 ∧ d3 ≤ 57) &&
      rest.all (fun b => decide (b = 32 ∨ isWordByte b))
  | _ => false

/-- Written from the spec (§4.4, step 1): parsing with delimiter scanning
over the whole buffer — find the first `\r\n\r\n` anywhere in the raw
bytes, take everything before it as the header block and everything after
it as the body, then parse status line and headers as the code does. -/
def spec_parse (raw : Bytes) : Option Response :=
  match findSub DELIM raw with
  | none => none
  | some i =>
    let rh := raw.take i
    let lines := pySplitSep CRLF rh
    match get_status (lines.headD []), parse_headers lines.tail with
    | .ok st, .ok hs => some ⟨st, hs, raw.drop (i + 4), rh⟩
    | _, _ => none

/-! ### Dictionary lemmas

Facts about the Python-dict model (`dictInsert`, `dictGet`, `updateAll`)
used to settle the header-merging claims. -/

theorem dictGet_insert_self (d : List (Str × Str)) (k v : Str) :
    dictGet (dictInsert d k v) k = some v := by
  induction d with
  | nil => simp [dictInsert, dictGet]
  | cons p rest ih =>
    by_cases h : p.1 = k
    · simp [dictInsert, h, dictGet]
    · simp [dictInsert, h, dictGet, ih]

theorem dictGet_insert_ne (d : List (Str × Str)) (k v k' : Str) (h : k' ≠ k) :
    dictGet (dictInsert d k v) k' = dictGet d k' := by
  have hk : ¬(k = k') := fun e => h e.symm
  induction d with
  | nil => simp [dictInsert, dictGet, hk]
  | cons p rest ih =>
    by_cases hp : p.1 = k
    · subst hp
      simp [dictInsert, dictGet, hk]
    · simp [dictInsert, hp, dictGet, ih]

theorem keys_insert_mem (k v : Str) :
    ∀ d : List (Str × Str), k ∈ d.map Prod.fst →
      (dictInsert d k v).map Prod.fst = d.map Prod.fst := by
  intro d
  induction d with
  | nil => intro h; simp at h
  | cons p rest ih =>
    intro h
    by_cases hp : p.1 = k
    · simp [dictInsert, hp]
    · have h' : k ∈ rest.map Prod.fst := by
        simp only [List.map_cons, List.mem_cons] at h
        rcases h with h | h
        · exact absurd h.symm hp
        · exact h
      simp [dictInsert, hp, ih h']

theorem keys_insert_not_mem (k v : Str) :
    ∀ d : List (Str × Str), k ∉ d.map Prod.fst →
      (dictInsert d k v).map Prod.fst = d.map Prod.fst ++ [k] := by
  intro d
  induction d with
  | nil => intro _; simp [dictInsert]
  | cons p rest ih =>
    intro h
    have hp : ¬(p.1 = k) := by
      intro e; apply h; simp [e]
    have h' : k ∉ rest.map Prod.fst := by
      intro m; apply h; simp [m]
    simp [dictInsert, hp, ih h']

theorem mem_insert (k v : Str) (q : Str × Str) :
    ∀ d : List (Str × Str), q ∈ dictInsert d k v → q ∈ d ∨ q = (k, v) := by
  intro d
  induction d with
  | nil =>
    intro h
    simp [dictInsert] at h
    right; exact h
  | cons p rest ih =>
    intro h
    by_cases hp : p.1 = k
    · simp only [dictInsert, if_pos hp] at h
      rcases List.mem_cons.1 h with h | h
      · right; exact h
      · left; exact List.mem_cons_of_mem p h
    · simp only [dictInsert, if_neg hp] at h
      rcases List.mem_cons.1 h with h | h
      · left; rw [h]; exact List.mem_cons_self p rest
      · rcases ih h with h' | h'
        · left; exact List.mem_cons_of_mem p h'
        · right; exact h'

theorem dictGet_eq_none (k : Str) :
    ∀ d : List (Str × Str), k ∉ d.map Prod.fst → dictGet d k = none := by
  intro d
  induction d with
  | nil => intro _; rfl
  | cons p rest ih =>
    intro h
    have hp : ¬(p.1 = k) := by
      intro e; apply h; simp [e]
    have h' : k ∉ rest.map Prod.fst := by
      intro m; apply h; simp [m]
    simp [dictGet, hp, ih h']

theorem updateAll_get_not_mem (user : List (Str × Str)) :
    ∀ (d : List (Str × Str)) (k : Str), k ∉ user.map Prod.fst →
      dictGet (updateAll d user) k = dictGet d k := by
  induction user with
  | nil => intro d k _; rfl
  | cons p rest ih =>
    intro d k h
    have hk : k ≠ p.1 := by
      intro e; apply h; simp [e]
    have h' : k ∉ rest.map Prod.fst := by
      intro m; apply h; simp [m]
    have h1 : dictGet (updateAll (dictInsert d p.1 p.2) rest) k
        = dictGet (dictInsert d p.1 p.2) k := ih _ k h'
    have h2 : dictGet (dictInsert d p.1 p.2) k = dictGet d k :=
      dictGet_insert_ne d p.1 p.2 k hk
    exact h1.trans h2

theorem updateAll_get_mem (user : List (Str × Str)) :
    ∀ (d : List (Str × Str)) (k v : Str), (user.map Prod.fst).Nodup →
      (k, v) ∈ user → dictGet (updateAll d user) k = some v := by
  induction user with
  | nil => intro d k v _ h; simp at h
  | cons p rest ih =>
    intro d k v hnd h
    rcases List.mem_cons.1 h with h | h
    · have hpk : p = (k, v) := h.symm
      subst hpk
      have hk : k ∉ rest.map Prod.fst := by
        have := (List.nodup_cons.1 hnd).1
        simpa using this
      have h1 : dictGet (updateAll (dictInsert d k v) rest) k
          = dictGet (dictInsert d k v) k := updateAll_get_not_mem rest _ k hk
      have h2 : dictGet (dictInsert d k v) k = some v := dictGet_insert_self d k v
      exact h1.trans h2
    · exact ih _ k v (List.nodup_cons.1 hnd).2 h

theorem mem_updateAll (user : List (Str × Str)) :
    ∀ (d : List (Str × Str)) (q : Str × Str), q ∈ updateAll d user →
      q ∈ d ∨ q ∈ user := by
  induction user with
  | nil => intro d q h; left; exact h
  | cons p rest ih =>
    intro d q h
    rcases ih _ q h with h' | h'
    · rcases mem_insert p.1 p.2 q d h' with h'' | h''
      · left; exact h''
      · right
        have hq : q = p := h''.trans Prod.mk.eta
        rw [hq]
        exact List.mem_cons_self p rest
    · right; exact List.mem_cons_of_mem p h'

theorem updateAll_keys (user : List (Str × Str)) :
    ∀ d : List (Str × Str), (user.map Prod.fst).Nodup →
      (updateAll d user).map Prod.fst =
        d.map Prod.fst ++
          (user.filter (fun p => decide (p.1 ∉ d.map Prod.fst))).map Prod.fst := by
  induction user with
  | nil => intro d _; simp [updateAll]
  | cons p rest ih =>
    intro d hnd
    have hnd' := (List.nodup_cons.1 hnd).2
    have hp : p.1 ∉ rest.map Prod.fst := (List.nodup_cons.1 hnd).1
    by_cases hm : p.1 ∈ d.map Prod.fst
    · have hkeys : (dictInsert d p.1 p.2).map Prod.fst = d.map Prod.fst :=
        keys_insert_mem p.1 p.2 d hm
      have hfil : rest.filter (fun q => decide (q.1 ∉ (dictInsert d p.1 p.2).map Prod.fst))
          = rest.filter (fun q => decide (q.1 ∉ d.map Prod.fst)) := by
        simp only [hkeys]
      calc (updateAll (dictInsert d p.1 p.2) rest).map Prod.fst
          = (dictInsert d p.1 p.2).map Prod.fst ++
              (rest.filter
                (fun q => decide (q.1 ∉ (dictInsert d p.1 p.2).map Prod.fst))).map
                Prod.fst := ih _ hnd'
        _ = d.map Prod.fst ++
              ((p :: rest).filter (fun q => decide (q.1 ∉ d.map Prod.fst))).map Prod.fst := by
            rw [hfil, hkeys]
            simp [List.filter_cons, hm]
    · have hkeys : (dictInsert d p.1 p.2).map Prod.fst = d.map Prod.fst ++ [p.1] :=
        keys_insert_not_mem p.1 p.2 d hm
      have hfil : rest.filter (fun q => decide (q.1 ∉ (dictInsert d p.1 p.2).map Prod.fst))
          = rest.filter (fun q => decide (q.1 ∉ d.map Prod.fst)) := by
        apply List.filter_congr
        intro q hq
        have hqp : q.1 ≠ p.1 := by
          intro e; exact hp (e ▸ List.mem_map.2 ⟨q, hq, rfl⟩)
        simp [hkeys, hqp]
      calc (updateAll (dictInsert d p.1 p.2) rest).map Prod.fst
          = (dictInsert d p.1 p.2).map Prod.fst ++
              (rest.filter
                (fun q => decide (q.1 ∉ (dictInsert d p.1 p.2).map Prod.fst))).map
                Prod.fst := ih _ hnd'
        _ = d.map Prod.fst ++
              ((p :: rest).filter (fun q => decide (q.1 ∉ d.map Prod.fst))).map Prod.fst := by
            rw [hfil, hkeys]
            simp [List.filter_cons, hm, List.append_assoc]

/-! ### Concrete sample input -/

/-- The sample response bytes from spec §8:
`b"HTTP/1.1 200 OK\r\nContent-Type: text/plain\r\n\r\nhello"`. -/
def sampleInput : Bytes :=
  encStr "HTTP/1.1 200 OK\r\nContent-Type: text/plain\r\n\r\nhello"

/-- The `Response` the code produces for `sampleInput`. -/
def sampleResponse : Response :=
  { status_code := 200,
    headers := [("Content-Type".toList, " text/plain".toList)],
    message_body := encStr "hello",
    headers_as_bytes := encStr "HTTP/1.1 200 OK\r\nContent-Type: text/plain" }

/-! ### Claim theorems -/

/-- Claim C2 (evidence of the code bug): the source validates header
names with `re.search(r"[a-zA-z\-]+", name)`, an unanchored search, so a
name containing a digit is accepted as long as it contains any letter.
`"1X"` does not match the spec's `[A-Za-z-]+` pattern, yet
`parse_user_headers` accepts it instead of raising
`HeaderFormatError("1X")`; only a name with no letter/hyphen-class
character at all (such as `"@@"`) is rejected. -/
theorem c2_header_validation_bug :
    specHeaderName "1X".toList = false
    ∧ parse_user_headers [("1X".toList, "v".toList)]
        = .ok [("1X".toList, "v".toList)]
    ∧ parse_user_headers [("@@".toList, "v".toList)]
        = .error (.headerFormat "@@".toList) := by decide

/-- Claim C3 (counterexample): for a POST with an *empty* body the code
still synthesizes both derived headers — `Content-Length: 0` and
`Content-Type: text/plain` — contradicting "for a POST with an empty
body, neither header is synthesized". -/
theorem c3_counterexample :
    dictGet (get_request_headers "POST".toList "example.com".toList
        "Mozilla/5.0".toList [] []) "Content-Length".toList = some "0".toList
    ∧ dictGet (get_request_headers "POST".toList "example.com".toList
        "Mozilla/5.0".toList [] []) "Content-Type".toList
        = some "text/plain".toList := by decide

/-- Claim C4 (counterexample): the status-line regex captures any three
digits, so `b"HTTP/1.0 000\r\n\r\n"` parses successfully to a `Response`
with status code `0`, outside the claimed interval `[100, 599]`. -/
theorem c4_counterexample :
    from_bytes (encStr "HTTP/1.0 000\r\n\r\n")
      = .ok { status_code := 0, headers := [], message_body := [],
              headers_as_bytes := encStr "HTTP/1.0 000" }
    ∧ ¬(100 ≤ (0 : Nat)) := by decide

/-- Claim C5 (counterexample): because `get_status` uses `re.search`, a
first line that does *not* match the status-line grammar (it starts with
`X`) is still accepted — the pattern is found as a substring — so no
`IncorrectStartingLineError` is raised, contradicting "fails ... exactly
when the first line does not match the status-line grammar". -/
theorem c5_counterexample :
    specStatusLineGrammar (encStr "XHTTP/1.1 200") = false
    ∧ from_bytes (encStr "XHTTP/1.1 200\r\n\r\n")
        = .ok { status_code := 200, headers := [], message_body := [],
                headers_as_bytes := encStr "XHTTP/1.1 200" } := by decide

/-- Claim C8: each response header line is split on the first `':'` with
the value the raw remainder (leading space included), and on the spec's
sample input the parser yields status 200, the headers mapping
`"Content-Type"` to `" text/plain"`, and body `b"hello"`. -/
theorem c8_first_colon_split :
    from_bytes sampleInput = .ok sampleResponse
    ∧ (∀ n v : Str, ':' ∉ n → splitFirstColon (n ++ ':' :: v) = some (n, v)) := by
  constructor
  · decide
  · intro n v hn
    induction n with
    | nil => simp [splitFirstColon]
    | cons c rest ih =>
      have hc : ¬(c = ':') := by
        intro e; exact hn (by rw [e]; exact List.mem_cons_self ':' rest)
      have hrest : ':' ∉ rest := fun m => hn (List.mem_cons_of_mem c m)
      simp [splitFirstColon, hc, ih hrest]

/-- Witness for C8: the general split property applied at the concrete
header line `"A: b"`. -/
theorem c8_first_colon_split_witness :
    splitFirstColon ("A".toList ++ ':' :: " b".toList)
      = some ("A".toList, " b".toList) :=
  c8_first_colon_split.2 "A".toList " b".toList (by decide)

/-- Claim C9: parsing is deterministic — two parses of the same raw bytes
that both succeed yield structurally equal responses (equal status code,
headers, body and raw header block). -/
theorem c9_parse_deterministic :
    ∀ (raw : Bytes) (r1 r2 : Response),
      from_bytes raw = .ok r1 → from_bytes raw = .ok r2 →
      r1.status_code = r2.status_code ∧ r1.headers = r2.headers
        ∧ r1.message_body = r2.message_body
        ∧ r1.headers_as_bytes = r2.headers_as_bytes := by
  intro raw r1 r2 h1 h2
  rw [h1] at h2
  injection h2 with h
  rw [h]
  exact ⟨rfl, rfl, rfl, rfl⟩

/-- Witness for C9: determinism applied at the spec's sample input. -/
theorem c9_parse_deterministic_witness :
    sampleResponse.status_code = sampleResponse.status_code
    ∧ sampleResponse.headers = sampleResponse.headers
    ∧ sampleResponse.message_body = sampleResponse.message_body
    ∧ sampleResponse.headers_as_bytes = sampleResponse.headers_as_bytes :=
  c9_parse_deterministic sampleInput sampleResponse sampleResponse
    (by decide) (by decide)

/-- A raw response whose header block is exactly 2046 bytes long, so that
the `\r\n\r\n` delimiter occupies positions 2046–2049 and is split across
the boundary of the first `read(2048)` chunk: the first chunk ends with
`\r\n` and the second begins with `\r\n`. -/
def c1_input : Bytes :=
  encStr "HTTP/1.1 200 OK\r\nB: " ++ List.replicate 2026 97
    ++ [13, 10, 13, 10] ++ encStr "hello"

set_option maxRecDepth 100000

/-- Claim C1 (evidence of the code bug): the delimiter of `c1_input`
occurs first at index 2046, i.e. split across the 2048-byte first-read
boundary.  Parsing as the spec describes (scanning the whole buffer)
yields status 200 and body `b"hello"`, but `from_bytes` searches each
read chunk separately, never finds the split delimiter, absorbs it into
the header block and fails with a `ValueError` instead of producing that
response. -/
theorem c1_split_delimiter_bug :
    findSub DELIM c1_input = some 2046
    ∧ from_bytes c1_input = .error .valueError
    ∧ (spec_parse c1_input).map (fun r => (r.status_code, r.message_body))
        = some (200, encStr "hello") := by
  decide

/-! ### Status-line lemmas -/

theorem tryStatusAt_le (s : Str) (n : Nat) (h : tryStatusAt s = some n) :
    n ≤ 999 := by
  unfold tryStatusAt at h
  split at h
  · split at h
    · rename_i hcond
      obtain ⟨_, _, _, _, _, _, _, _, _, h1, h2, h3⟩ := hcond
      unfold isDigitP at h1 h2 h3
      injection h with h'
      omega
    · exact Option.noConfusion h
  · exact Option.noConfusion h

theorem statusSearch_le (s : Str) : ∀ n, statusSearch s = some n → n ≤ 999 := by
  induction s with
  | nil => intro n h; exact Option.noConfusion h
  | cons c rest ih =>
    intro n h
    unfold statusSearch at h
    split at h
    · rename_i m hm
      injection h with h'
      exact h' ▸ tryStatusAt_le _ m hm
    · exact ih n h

theorem get_status_ok (line : Bytes) (n : Nat) (h : get_status line = .ok n) :
    statusSearch (pyReprB line) = some n := by
  unfold get_status at h
  split at h
  · rename_i m hm
    injection h with h'
    rw [← h']
    exact hm
  · split at h <;> exact Except.noConfusion h

/-- Claim C4 (amended): every `Response` produced by `from_bytes` has a
status code of at most 999 — the regex captures exactly three decimal
digits, but nothing enforces the claimed lower bound 100 (see the
counterexample, which produces status 0). -/
theorem c4_status_at_most_999 :
    ∀ (raw : Bytes) (r : Response), from_bytes raw = .ok r →
      r.status_code ≤ 999 := by
  intro raw r h
  unfold from_bytes at h
  split at h
  · exact Except.noConfusion h
  · rename_i code hcode
    split at h
    · exact Except.noConfusion h
    · injection h with h'
      have hst : r.status_code = code := by rw [← h']
      rw [hst]
      exact statusSearch_le _ code (get_status_ok _ code hcode)

/-- Witness for the amended C4 at the spec's sample input. -/
theorem c4_status_at_most_999_witness : sampleResponse.status_code ≤ 999 :=
  c4_status_at_most_999 sampleInput sampleResponse (by decide)

theorem charToNat_ofNat (n : Nat) (h : n < 55296) : (Char.ofNat n).toNat = n := by
  unfold Char.ofNat
  rw [dif_pos (Or.inl h : Nat.isValidChar n)]
  rfl

theorem reprBytes_printable :
    ∀ line : Bytes, (∀ b ∈ line, 32 ≤ b ∧ b ≤ 126 ∧ b ≠ 39 ∧ b ≠ 92) →
      (line.map (reprByte 39)).foldr (· ++ ·) [Char.ofNat 39]
        = line.map Char.ofNat ++ [Char.ofNat 39] := by
  intro line
  induction line with
  | nil => intro _; rfl
  | cons b rest ih =>
    intro h
    have hb := h b (List.mem_cons_self b rest)
    have hrb : reprByte 39 b = [Char.ofNat b] := by
      unfold reprByte
      rw [if_neg (by omega), if_neg (by omega), if_neg (by omega), if_neg (by omega),
        if_neg (by omega), if_pos (by omega)]
    simp only [List.map_cons, List.foldr_cons,
      ih (fun q hq => h q (List.mem_cons_of_mem b hq)), hrb]
    rfl

theorem pyReprB_printable (line : Bytes)
    (h : ∀ b ∈ line, 32 ≤ b ∧ b ≤ 126 ∧ b ≠ 39 ∧ b ≠ 92) :
    pyReprB line = 'b' :: Char.ofNat 39 :: (line.map Char.ofNat ++ [Char.ofNat 39]) := by
  have hq : pyQuote line = 39 := by
    unfold pyQuote
    rw [if_neg]
    intro hc
    exact (h 39 hc.1).2.2.1 rfl
  unfold pyReprB
  rw [hq, reprBytes_printable line h]

theorem grammar_inv (line : Bytes) (h : specStatusLineGrammar line = true) :
    ∃ v d1 d2 d3 rest,
      line = 72 :: 84 :: 84 :: 80 :: 47 :: 49 :: 46 :: v :: 32 :: d1 :: d2 :: d3 :: rest
      ∧ (v = 48 ∨ v = 49) ∧ (48 ≤ d1 ∧ d1 ≤ 57) ∧ (48 ≤ d2 ∧ d2 ≤ 57)
      ∧ (48 ≤ d3 ∧ d3 ≤ 57) ∧ ∀ b ∈ rest, b = 32 ∨ isWordByte b := by
  unfold specStatusLineGrammar at h
  split at h
  · rename_i v d1 d2 d3 rest
    simp only [Bool.and_eq_true, decide_eq_true_eq, List.all_eq_true] at h
    obtain ⟨⟨⟨⟨hv, h1⟩, h2⟩, h3⟩, hrest⟩ := h
    exact ⟨v, d1, d2, d3, rest, rfl, hv, h1, h2, h3, hrest⟩
  · exact Bool.noConfusion h

theorem statusSearch_some_of_drop (s : Str) :
    ∀ (i n : Nat), tryStatusAt (List.drop i s) = some n →
      ∃ m, statusSearch s = some m := by
  induction s with
  | nil =>
    intro i n h
    rw [List.drop_nil] at h
    exact Option.noConfusion (show (none : Option Nat) = some n from h)
  | cons c rest ih =>
    intro i n h
    cases i with
    | zero =>
      refine ⟨n, ?_⟩
      rw [List.drop_zero] at h
      unfold statusSearch
      rw [h]
    | succ j =>
      rw [List.drop_succ_cons] at h
      rcases ih j n h with ⟨m, hm⟩
      cases ht : tryStatusAt (c :: rest) with
      | some k =>
        refine ⟨k, ?_⟩
        unfold statusSearch
        rw [ht]
      | none =>
        refine ⟨m, ?_⟩
        unfold statusSearch
        rw [ht]
        exact hm

theorem grammar_ok (line : Bytes) (h : specStatusLineGrammar line = true) :
    ∃ n, get_status line = .ok n := by
  obtain ⟨v, d1, d2, d3, rest, hline, hv, h1, h2, h3, hrest⟩ := grammar_inv line h
  subst hline
  have hbytes : ∀ b ∈ (72 :: 84 :: 84 :: 80 :: 47 :: 49 :: 46 :: v :: 32
      :: d1 :: d2 :: d3 :: rest : Bytes), 32 ≤ b ∧ b ≤ 126 ∧ b ≠ 39 ∧ b ≠ 92 := by
    intro b hb
    simp only [List.mem_cons] at hb
    rcases hb with rfl | rfl | rfl | rfl | rfl | rfl | rfl | rfl | rfl | rfl | rfl | rfl | hb
    · omega
    · omega
    · omega
    · omega
    · omega
    · omega
    · omega
    · rcases hv with rfl | rfl <;> omega
    · omega
    · omega
    · omega
    · omega
    · rcases hrest b hb with rfl | hw
      · omega
      · unfold isWordByte at hw
        rcases hw with hw | hw | hw | hw <;> omega
  have hrepr := pyReprB_printable _ hbytes
  have hv' : Char.ofNat v = '0' ∨ Char.ofNat v = '1' := by
    rcases hv with rfl | rfl
    · exact Or.inl (by decide)
    · exact Or.inr (by decide)
  have hd1 : isDigitP (Char.ofNat d1) := by
    unfold isDigitP; rw [charToNat_ofNat _ (by omega)]; omega
  have hd2 : isDigitP (Char.ofNat d2) := by
    unfold isDigitP; rw [charToNat_ofNat _ (by omega)]; omega
  have hd3 : isDigitP (Char.ofNat d3) := by
    unfold isDigitP; rw [charToNat_ofNat _ (by omega)]; omega
  have htry : tryStatusAt (((72 :: 84 :: 84 :: 80 :: 47 :: 49 :: 46 :: v :: 32
      :: d1 :: d2 :: d3 :: rest : Bytes)).map Char.ofNat ++ [Char.ofNat 39])
      = some (100 * ((Char.ofNat d1).toNat - 48) + 10 * ((Char.ofNat d2).toNat - 48)
          + ((Char.ofNat d3).toNat - 48)) := by
    show (if (Char.ofNat 72 = 'H' ∧ Char.ofNat 84 = 'T' ∧ Char.ofNat 84 = 'T'
        ∧ Char.ofNat 80 = 'P' ∧ Char.ofNat 47 = '/' ∧ Char.ofNat 49 = '1'
        ∧ Char.ofNat 46 = '.' ∧ (Char.ofNat v = '0' ∨ Char.ofNat v = '1')
        ∧ Char.ofNat 32 = ' ' ∧ isDigitP (Char.ofNat d1) ∧ isDigitP (Char.ofNat d2)
        ∧ isDigitP (Char.ofNat d3)) then
        some (100 * ((Char.ofNat d1).toNat - 48) + 10 * ((Char.ofNat d2).toNat - 48)
          + ((Char.ofNat d3).toNat - 48))
      else none)
      = some (100 * ((Char.ofNat d1).toNat - 48) + 10 * ((Char.ofNat d2).toNat - 48)
          + ((Char.ofNat d3).toNat - 48))
    rw [if_pos ⟨by decide, by decide, by decide, by decide, by decide, by decide, by decide,
      hv', by decide, hd1, hd2, hd3⟩]
  have hdrop : tryStatusAt (List.drop 2 (pyReprB (72 :: 84 :: 84 :: 80 :: 47 :: 49 :: 46
      :: v :: 32 :: d1 :: d2 :: d3 :: rest))) = some (100 * ((Char.ofNat d1).toNat - 48)
        + 10 * ((Char.ofNat d2).toNat - 48) + ((Char.ofNat d3).toNat - 48)) := by
    rw [hrepr]
    exact htry
  obtain ⟨m, hm⟩ := statusSearch_some_of_drop _ 2 _ hdrop
  refine ⟨m, ?_⟩
  unfold get_status
  rw [hm]

/-- Claim C5 (amended): `get_status` fails with
`IncorrectStartingLineError(line)` exactly when the status-line pattern
occurs nowhere in the Python repr of the (UTF-8-decodable) first line —
an unanchored substring search, not a match of the whole line against the
grammar.  In particular `b"GARBAGE\r\n\r\n"` raises the error, and a
first line genuinely matching the grammar never does. -/
theorem c5_amended :
    (∀ (line : Bytes) (s : Str),
        get_status line = .error (.incorrectStartingLine s)
          ↔ statusSearch (pyReprB line) = none ∧ decodeUtf8 line = .ok s)
    ∧ (∀ line : Bytes, specStatusLineGrammar line = true →
        ∃ n, get_status line = .ok n)
    ∧ from_bytes (encStr "GARBAGE\r\n\r\n")
        = .error (.incorrectStartingLine "GARBAGE".toList) := by
  refine ⟨?_, grammar_ok, by decide⟩
  intro line s
  constructor
  · intro h
    unfold get_status at h
    split at h
    · exact Except.noConfusion h
    · rename_i hnone
      split at h
      · rename_i s' hs'
        injection h with h1
        injection h1 with h2
        exact ⟨hnone, h2 ▸ hs'⟩
      · injection h with h1
        exact Err.noConfusion h1
  · intro hyp
    obtain ⟨hn, hd⟩ := hyp
    unfold get_status
    rw [hn, hd]

/-- Witness for the amended C5: a line matching the status-line grammar
parses to some status code. -/
theorem c5_amended_witness : ∃ n, get_status (encStr "HTTP/1.1 200 OK") = .ok n :=
  c5_amended.2.1 (encStr "HTTP/1.1 200 OK") (by decide)

/-! ### Header-line parsing lemmas -/

/-- `true` iff the `Except` value is `.ok`. -/
def isOkE {α : Type} (e : Except Err α) : Bool :=
  match e with
  | .ok _ => true
  | .error _ => false

/-- `true` iff the line decodes (UTF-8) and the decoded string contains no
`':'` — i.e. the line whose two-name unpacking raises `ValueError`. -/
def decodesColonFree (l : Bytes) : Bool :=
  match decodeUtf8 l with
  | .ok s => decide (':' ∉ s)
  | .error _ => false

theorem splitFirstColon_of_not_mem (s : Str) (h : ':' ∉ s) :
    splitFirstColon s = none := by
  induction s with
  | nil => rfl
  | cons c rest ih =>
    have hc : ¬(c = ':') := by
      intro e
      exact h (by rw [e]; exact List.mem_cons_self ':' rest)
    have h' : ':' ∉ rest := fun m => h (List.mem_cons_of_mem c m)
    simp [splitFirstColon, hc, ih h']

theorem parse_headers_error (ls : List Bytes) :
    ∀ acc, (∀ l ∈ ls, isOkE (decodeUtf8 l) = true) →
      (∃ l ∈ ls, decodesColonFree l = true) →
      parseHeadersAux acc ls = .error .valueError := by
  induction ls with
  | nil =>
    intro acc _ hex
    simp at hex
  | cons h rest ih =>
    intro acc hall hex
    have hh := hall h (List.mem_cons_self h rest)
    cases hd : decodeUtf8 h with
    | error e =>
      rw [hd] at hh
      exact absurd hh (by simp [isOkE])
    | ok s =>
      simp only [parseHeadersAux]
      rw [hd]
      show (match splitFirstColon s with
        | none => Except.error Err.valueError
        | some p => parseHeadersAux (dictInsert acc p.1 p.2) rest)
        = Except.error Err.valueError
      cases hc : splitFirstColon s with
      | none => rfl
      | some p =>
        have hex' : ∃ l ∈ rest, decodesColonFree l = true := by
          rcases hex with ⟨l, hl, hcf⟩
          rcases List.mem_cons.1 hl with rfl | hl'
          · unfold decodesColonFree at hcf
            rw [hd] at hcf
            have hns : ':' ∉ s := of_decide_eq_true hcf
            rw [splitFirstColon_of_not_mem s hns] at hc
            exact Option.noConfusion hc
          · exact ⟨l, hl', hcf⟩
        exact ih _ (fun l hl => hall l (List.mem_cons_of_mem h hl)) hex'

/-- Claim C10: whenever the header block (as the code splits it) contains
a header line with no `':'` — all header lines being UTF-8-decodable, so
that the split is actually reached, and the status line being accepted —
parsing fails with the generic unpacking `ValueError`, not one of the
domain errors, and no `Response` is constructed. -/
theorem c10_no_colon_value_error :
    ∀ (raw : Bytes) (st : Nat),
      get_status ((respLines raw).headD []) = .ok st →
      (∀ l ∈ (respLines raw).tail, isOkE (decodeUtf8 l) = true) →
      (∃ l ∈ (respLines raw).tail, decodesColonFree l = true) →
      from_bytes raw = .error .valueError := by
  intro raw st hst hall hex
  unfold from_bytes
  rw [hst]
  have hp : parse_headers (respLines raw).tail = .error .valueError :=
    parse_headers_error _ [] hall hex
  rw [hp]

/-- Witness for C10: a concrete response whose second header line
(`NOCOLON`) has no separator parses to a `ValueError`. -/
theorem c10_no_colon_value_error_witness :
    from_bytes (encStr "HTTP/1.1 200 OK\r\nA: b\r\nNOCOLON\r\n\r\nx")
      = .error .valueError :=
  c10_no_colon_value_error (encStr "HTTP/1.1 200 OK\r\nA: b\r\nNOCOLON\r\n\r\nx")
    200 (by decide) (by decide) (by decide)

/-! ### Header-merging claims -/

theorem not_mem_of_dictGet_none (k : Str) :
    ∀ d : List (Str × Str), dictGet d k = none → k ∉ d.map Prod.fst := by
  intro d
  induction d with
  | nil => intro _ m; simp at m
  | cons p rest ih =>
    intro h m
    by_cases hp : p.1 = k
    · simp only [dictGet, if_pos hp] at h
      exact Option.noConfusion h
    · simp only [dictGet, if_neg hp] at h
      simp only [List.map_cons, List.mem_cons] at m
      rcases m with m | m
      · exact hp m.symm
      · exact ih h m

/-- Claim C3 (amended): `Content-Length` and `Content-Type` are
synthesized whenever the method is POST — including for an empty body,
where `Content-Length: 0` is emitted (see the counterexample); a
user-supplied header of the same name overrides the synthesized value,
and for any non-POST method neither header is synthesized. -/
theorem c3_post_headers :
    ∀ (host agent : Str) (body : Bytes) (user : List (Str × Str)) (method : Str),
      (user.map Prod.fst).Nodup →
      ((dictGet user "Content-Length".toList = none →
          dictGet (get_request_headers "POST".toList host agent body user)
            "Content-Length".toList = some (natRepr body.length))
        ∧ (dictGet user "Content-Type".toList = none →
          dictGet (get_request_headers "POST".toList host agent body user)
            "Content-Type".toList = some "text/plain".toList)
        ∧ (∀ v, ("Content-Length".toList, v) ∈ user →
          dictGet (get_request_headers "POST".toList host agent body user)
            "Content-Length".toList = some v)
        ∧ (∀ v, ("Content-Type".toList, v) ∈ user →
          dictGet (get_request_headers "POST".toList host agent body user)
            "Content-Type".toList = some v)
        ∧ (method ≠ "POST".toList →
          dictGet user "Content-Length".toList = none →
          dictGet (get_request_headers method host agent body user)
            "Content-Length".toList = none)
        ∧ (method ≠ "POST".toList →
          dictGet user "Content-Type".toList = none →
          dictGet (get_request_headers method host agent body user)
            "Content-Type".toList = none)) := by
  intro host agent body user method hnd
  refine ⟨?_, ?_, ?_, ?_, ?_, ?_⟩
  · intro hnone
    have hk := not_mem_of_dictGet_none _ user hnone
    have h1 := updateAll_get_not_mem user (preHeaders "POST".toList host agent body)
      "Content-Length".toList hk
    have hpre : dictGet (preHeaders "POST".toList host agent body)
        "Content-Length".toList = some (natRepr body.length) := by
      unfold preHeaders
      rw [if_pos rfl, dictGet_insert_ne _ _ _ _ (by decide)]
      exact dictGet_insert_self _ _ _
    exact h1.trans hpre
  · intro hnone
    have hk := not_mem_of_dictGet_none _ user hnone
    have h1 := updateAll_get_not_mem user (preHeaders "POST".toList host agent body)
      "Content-Type".toList hk
    have hpre : dictGet (preHeaders "POST".toList host agent body)
        "Content-Type".toList = some "text/plain".toList := by
      unfold preHeaders
      rw [if_pos rfl]
      exact dictGet_insert_self _ _ _
    exact h1.trans hpre
  · intro v hv
    exact updateAll_get_mem user _ _ v hnd hv
  · intro v hv
    exact updateAll_get_mem user _ _ v hnd hv
  · intro hm hnone
    have hk := not_mem_of_dictGet_none _ user hnone
    have h1 := updateAll_get_not_mem user (preHeaders method host agent body)
      "Content-Length".toList hk
    have hpre : dictGet (preHeaders method host agent body)
        "Content-Length".toList = none := by
      unfold preHeaders
      rw [if_neg hm]
      refine dictGet_eq_none _ _ ?_
      show "Content-Length".toList ∉ (["Host".toList, "User-Agent".toList,
        "Accept".toList, "Connection".toList] : List Str)
      decide
    exact h1.trans hpre
  · intro hm hnone
    have hk := not_mem_of_dictGet_none _ user hnone
    have h1 := updateAll_get_not_mem user (preHeaders method host agent body)
      "Content-Type".toList hk
    have hpre : dictGet (preHeaders method host agent body)
        "Content-Type".toList = none := by
      unfold preHeaders
      rw [if_neg hm]
      refine dictGet_eq_none _ _ ?_
      show "Content-Type".toList ∉ (["Host".toList, "User-Agent".toList,
        "Accept".toList, "Connection".toList] : List Str)
      decide
    exact h1.trans hpre

/-- Witness for the amended C3: a POST with body `b"xy"` and no user
override carries `Content-Length` with the decimal body length. -/
theorem c3_post_headers_witness :
    dictGet (get_request_headers "POST".toList "example.com".toList
        "Mozilla/5.0".toList (encStr "xy") [("X-Test".toList, "v".toList)])
      "Content-Length".toList = some (natRepr (encStr "xy").length) :=
  (c3_post_headers "example.com".toList "Mozilla/5.0".toList (encStr "xy")
    [("X-Test".toList, "v".toList)] "GET".toList (by decide)).1 (by decide)

/-- Claim C6: the merged header dict starts with the base names in fixed
order (`Host`, `User-Agent`, `Accept`, `Connection`, plus for POST
`Content-Length` then `Content-Type`); user values win on name collision
while keeping the base position (the key sequence is unchanged); user
headers with new names are appended after the base set in user input
order; base entries not overridden keep their base values. -/
theorem c6_header_merge_order :
    ∀ (method host agent : Str) (body : Bytes) (user : List (Str × Str)),
      (user.map Prod.fst).Nodup →
      ((get_request_headers method host agent body user).map Prod.fst
          = (preHeaders method host agent body).map Prod.fst
            ++ (user.filter
                (fun p =>
                  decide (p.1 ∉ (preHeaders method host agent body).map Prod.fst))).map
              Prod.fst)
      ∧ ((preHeaders method host agent body).map Prod.fst
          = if method = "POST".toList then
              ["Host".toList, "User-Agent".toList, "Accept".toList, "Connection".toList,
                "Content-Length".toList, "Content-Type".toList]
            else
              ["Host".toList, "User-Agent".toList, "Accept".toList, "Connection".toList])
      ∧ (∀ k v, (k, v) ∈ user →
          dictGet (get_request_headers method host agent body user) k = some v)
      ∧ (∀ k, k ∈ (preHeaders method host agent body).map Prod.fst →
          k ∉ user.map Prod.fst →
          dictGet (get_request_headers method host agent body user) k
            = dictGet (preHeaders method host agent body) k) := by
  intro method host agent body user hnd
  refine ⟨updateAll_keys user _ hnd, ?_,
    fun k v hm => updateAll_get_mem user _ k v hnd hm,
    fun k _ hk => updateAll_get_not_mem user _ k hk⟩
  by_cases hm : method = "POST".toList
  · rw [if_pos hm]
    unfold preHeaders
    rw [if_pos hm]
    rfl
  · rw [if_neg hm]
    unfold preHeaders
    rw [if_neg hm]
    rfl

/-- Witness for C6: a fresh user header name is appended and looked up
with the user's value. -/
theorem c6_header_merge_order_witness :
    dictGet (get_request_headers "GET".toList "example.com".toList
        "Mozilla/5.0".toList [] [("X-Test".toList, "v".toList)])
      "X-Test".toList = some "v".toList :=
  (c6_header_merge_order "GET".toList "example.com".toList "Mozilla/5.0".toList []
    [("X-Test".toList, "v".toList)] (by decide)).2.2.1 "X-Test".toList "v".toList
    (by decide)

/-! ### Serialization claims -/

/-- All characters of the string are Latin-1-encodable. -/
def latin1Str (s : Str) : Bool := s.all (fun c => decide (latin1Char c))

theorem encodeLatin1_ok (s : Str) (h : latin1Str s = true) :
    encodeLatin1 s = .ok (encL s) := by
  unfold encodeLatin1 encL
  rw [if_pos (show (List.all s fun c => decide (latin1Char c)) = true from h)]

theorem natReprAux_latin1 : ∀ fuel n, latin1Str (natReprAux fuel n) = true := by
  intro fuel
  induction fuel with
  | zero => intro n; rfl
  | succ f ih =>
    intro n
    unfold natReprAux
    by_cases h : n < 10
    · rw [if_pos h]
      unfold latin1Str digitChar
      simp only [List.all_cons, List.all_nil, Bool.and_true, decide_eq_true_eq]
      unfold latin1Char
      rw [charToNat_ofNat _ (by omega)]
      omega
    · rw [if_neg h]
      have h1 := ih (n / 10)
      have h2 : latin1Str [digitChar (n % 10)] = true := by
        unfold latin1Str digitChar
        simp only [List.all_cons, List.all_nil, Bool.and_true, decide_eq_true_eq]
        unfold latin1Char
        rw [charToNat_ofNat _ (by omega)]
        omega
      unfold latin1Str at h1 h2 ⊢
      rw [List.all_append, h1, h2]
      rfl

theorem mem_preHeaders (method host agent : Str) (body : Bytes) (p : Str × Str)
    (h : p ∈ preHeaders method host agent body) :
    p = ("Host".toList, host) ∨ p = ("User-Agent".toList, agent)
    ∨ p = ("Accept".toList, "*/*".toList) ∨ p = ("Connection".toList, "close".toList)
    ∨ p = ("Content-Length".toList, natRepr body.length)
    ∨ p = ("Content-Type".toList, "text/plain".toList) := by
  unfold preHeaders at h
  by_cases hm : method = "POST".toList
  · rw [if_pos hm] at h
    rcases mem_insert _ _ p _ h with h1 | h1
    · rcases mem_insert _ _ p _ h1 with h2 | h2
      · simp only [List.mem_cons, List.not_mem_nil, or_false] at h2
        tauto
      · tauto
    · tauto
  · rw [if_neg hm] at h
    simp only [List.mem_cons, List.not_mem_nil, or_false] at h
    tauto

theorem mem_parseUserHeadersAux :
    ∀ (hs acc user : List (Str × Str)),
      parseUserHeadersAux acc hs = .ok user →
      ∀ p ∈ user, p ∈ acc ∨ p ∈ hs := by
  intro hs
  induction hs with
  | nil =>
    intro acc user h p hp
    simp only [parseUserHeadersAux] at h
    injection h with h'
    left
    rw [h']
    exact hp
  | cons q rest ih =>
    intro acc user h p hp
    simp only [parseUserHeadersAux] at h
    by_cases hq : headerExprSearch q.1 = true
    · rw [if_pos hq] at h
      rcases ih _ user h p hp with h1 | h1
      · rcases mem_insert q.1 q.2 p acc h1 with h2 | h2
        · left; exact h2
        · right
          have hpq : p = q := h2.trans Prod.mk.eta
          rw [hpq]
          exact List.mem_cons_self q rest
      · right; exact List.mem_cons_of_mem q h1
    · rw [if_neg hq] at h
      exact Except.noConfusion h

theorem mem_parse_user (hs user : List (Str × Str))
    (h : parse_user_headers hs = .ok user) : ∀ p ∈ user, p ∈ hs := by
  intro p hp
  rcases mem_parseUserHeadersAux hs [] user h p hp with h1 | h1
  · simp at h1
  · exact h1

theorem headerLinesBytes_ok :
    ∀ hs : List (Str × Str),
      (∀ p ∈ hs, latin1Str (p.1 ++ ": ".toList ++ p.2 ++ "\r\n".toList) = true) →
      headerLinesBytes hs
        = .ok ((hs.map (fun p => encL (p.1 ++ ": ".toList ++ p.2 ++ "\r\n".toList))).flatten) := by
  intro hs
  induction hs with
  | nil => intro _; rfl
  | cons p rest ih =>
    intro h
    have hE := encodeLatin1_ok _ (h p (List.mem_cons_self p rest))
    simp only [headerLinesBytes]
    rw [hE]
    show (match headerLinesBytes rest with
      | .error e => Except.error e
      | .ok bs => .ok (encL (p.1 ++ ": ".toList ++ p.2 ++ "\r\n".toList) ++ bs))
      = Except.ok (((p :: rest).map
          (fun q => encL (q.1 ++ ": ".toList ++ q.2 ++ "\r\n".toList))).flatten)
    rw [ih (fun q hq => h q (List.mem_cons_of_mem p hq))]
    show Except.ok (encL (p.1 ++ ": ".toList ++ p.2 ++ "\r\n".toList)
        ++ ((rest.map (fun q => encL (q.1 ++ ": ".toList ++ q.2 ++ "\r\n".toList))).flatten))
      = _
    simp only [List.map_cons, List.flatten_cons]

/-- Claim C7: for a well-formed request description — the user headers
parse, and all strings are Latin-1-encodable — serialization never fails
and emits exactly the request line `METHOD path?query HTTP/1.1\r\n` (raw
path and query as given), each header as `Name: Value\r\n` in the
established dict order, the empty line `\r\n`, the raw body bytes
unmodified, and a trailing `\r\n\r\n`. -/
theorem c7_serialization_layout :
    ∀ (r : RequestSpec) (user : List (Str × Str)),
      parse_user_headers r.headers = .ok user →
      latin1Str r.method = true → latin1Str r.raw_path_qs = true →
      latin1Str r.host = true → latin1Str r.user_agent = true →
      (∀ p ∈ r.headers, latin1Str p.1 = true ∧ latin1Str p.2 = true) →
      request_to_bytes r
        = .ok (encL (r.method ++ [' '] ++ r.raw_path_qs ++ " HTTP/1.1\r\n".toList)
            ++ ((get_request_headers r.method r.host r.user_agent r.message_body user).map
                (fun p => encL (p.1 ++ ": ".toList ++ p.2 ++ "\r\n".toList))).flatten
            ++ [13, 10] ++ r.message_body ++ [13, 10, 13, 10]) := by
  intro r user hparse hm hpq hh ha huser
  have hmemb : ∀ p ∈ get_request_headers r.method r.host r.user_agent r.message_body user,
      latin1Str p.1 = true ∧ latin1Str p.2 = true := by
    intro p hp
    rcases mem_updateAll user _ p hp with h1 | h1
    · rcases mem_preHeaders _ _ _ _ p h1 with h2 | h2 | h2 | h2 | h2 | h2 <;> rw [h2]
      · exact ⟨(by decide : latin1Str "Host".toList = true), hh⟩
      · exact ⟨(by decide : latin1Str "User-Agent".toList = true), ha⟩
      · exact ⟨(by decide : latin1Str "Accept".toList = true),
          (by decide : latin1Str "*/*".toList = true)⟩
      · exact ⟨(by decide : latin1Str "Connection".toList = true),
          (by decide : latin1Str "close".toList = true)⟩
      · exact ⟨(by decide : latin1Str "Content-Length".toList = true),
          natReprAux_latin1 (r.message_body.length + 1) r.message_body.length⟩
      · exact ⟨(by decide : latin1Str "Content-Type".toList = true),
          (by decide : latin1Str "text/plain".toList = true)⟩
    · exact huser p (mem_parse_user r.headers user hparse p h1)
  have hlines : ∀ p ∈ get_request_headers r.method r.host r.user_agent r.message_body user,
      latin1Str (p.1 ++ ": ".toList ++ p.2 ++ "\r\n".toList) = true := by
    intro p hp
    have hpl := hmemb p hp
    unfold latin1Str at hpl ⊢
    rw [List.all_append, List.all_append, List.all_append, hpl.1, hpl.2]
    decide
  have hline1 : latin1Str (r.method ++ [' '] ++ r.raw_path_qs ++ " HTTP/1.1\r\n".toList)
      = true := by
    unfold latin1Str at hm hpq ⊢
    rw [List.all_append, List.all_append, List.all_append, hm, hpq]
    decide
  unfold request_to_bytes
  rw [hparse]
  show request_bytes r.method r.raw_path_qs
      (get_request_headers r.method r.host r.user_agent r.message_body user)
      r.message_body = _
  unfold request_bytes
  rw [encodeLatin1_ok _ hline1]
  show (match headerLinesBytes
      (get_request_headers r.method r.host r.user_agent r.message_body user) with
    | .error e => Except.error e
    | .ok hb => .ok (encL (r.method ++ [' '] ++ r.raw_path_qs ++ " HTTP/1.1\r\n".toList)
        ++ hb ++ [13, 10] ++ r.message_body ++ [13, 10, 13, 10]))
    = _
  rw [headerLinesBytes_ok _ hlines]

/-- Witness for C7: the serialized bytes of a GET request to
`/path?x=1` with one user header and an empty body. -/
theorem c7_serialization_layout_witness :
    request_to_bytes
        { method := "GET".toList, host := "example.com".toList,
          raw_path_qs := "/path?x=1".toList, user_agent := "Mozilla/5.0".toList,
          headers := [("X-Test".toList, "v".toList)], message_body := [] }
      = .ok (encL ("GET".toList ++ [' '] ++ "/path?x=1".toList ++ " HTTP/1.1\r\n".toList)
          ++ ((get_request_headers "GET".toList "example.com".toList "Mozilla/5.0".toList []
              [("X-Test".toList, "v".toList)]).map
              (fun p => encL (p.1 ++ ": ".toList ++ p.2 ++ "\r\n".toList))).flatten
          ++ [13, 10] ++ [] ++ [13, 10, 13, 10]) :=
  c7_serialization_layout
    { method := "GET".toList, host := "example.com".toList,
      raw_path_qs := "/path?x=1".toList, user_agent := "Mozilla/5.0".toList,
      headers := [("X-Test".toList, "v".toList)], message_body := [] }
    [("X-Test".toList, "v".toList)]
    (by decide) (by decide) (by decide) (by decide) (by decide) (by decide)

end HttpClient
